import Mathlib

/-!
Verification of the parts-transfer application (`src/app.py`).

The session state and the operations `add_part`, `remove_part`,
`update_quantity`, `save_transfer_data`, `reset_transfer` and the
Complete-Transfer button handler are embedded shallowly.  Clock reads
(`time.time()` / `datetime.now()`) are modelled by an explicit `now : ℚ`
argument; the HTTP POST of `save_transfer_data` is modelled by a function
argument returning either a response or an exception message.
-/

namespace PartsApp

/-- One entry of `st.session_state.parts`: the dict
`{'barcode': ..., 'quantity': ..., 'timestamp': ...}` built in `add_part`. -/
structure Part where
  barcode : String
  quantity : Int
  timestamp : ℚ
  deriving Repr, DecidableEq

/-- The session state initialised at the top of `app.py`:
`parts`, `transfer_complete`, `scanning_mode`, `last_scanned_code`,
`last_scan_time`. -/
structure AppState where
  parts : List Part
  transfer_complete : Bool
  scanning_mode : Option String
  last_scanned_code : String
  last_scan_time : ℚ
  deriving Repr, DecidableEq

/-- The initial session state (`parts = []`, `transfer_complete = False`,
`scanning_mode = None`, `last_scanned_code = ""`, `last_scan_time = 0`). -/
def initState : AppState := ⟨[], false, none, "", 0⟩

/-- `SCAN_COOLDOWN = 1.5` — seconds between accepting the same scanned code. -/
def SCAN_COOLDOWN : ℚ := 3 / 2

/-- Python's `str.strip()`: remove leading and trailing whitespace. -/
def pyStrip (s : String) : String :=
  ⟨((s.data.dropWhile Char.isWhitespace).reverse.dropWhile Char.isWhitespace).reverse⟩

/-- Python's `str.upper()`: uppercase every character. -/
def pyUpper (s : String) : String :=
  ⟨s.data.map Char.toUpper⟩

/-- The rejection test at the top of `add_part`:
`if not barcode or len(barcode.strip()) < 2` (`not barcode` is true exactly
for the empty string). -/
def rejectsRaw (barcode : String) : Bool :=
  barcode == "" || (pyStrip barcode).length < 2

/-- The normalisation applied in `add_part`: `barcode.strip().upper()`. -/
def normalizeCode (barcode : String) : String :=
  pyUpper (pyStrip barcode)

/-- The `for part in st.session_state.parts` loop of `add_part` together with
the append that follows it: increment the quantity of the first entry whose
`barcode` matches, or append `{'barcode': code, 'quantity': 1, 'timestamp': now}`
at the end. -/
def upsertParts (parts : List Part) (code : String) (now : ℚ) : List Part :=
  match parts with
  | [] => [⟨code, 1, now⟩]
  | p :: rest =>
    if p.barcode == code then
      ⟨p.barcode, p.quantity + 1, p.timestamp⟩ :: rest
    else
      p :: upsertParts rest code now

/-- `add_part(barcode, from_scanner)`: validation, normalisation, the scanner
cooldown filter, and the upsert into `parts`.  Returns the boolean result of
the Python function together with the updated session state. -/
def add_part (s : AppState) (barcode : String) (now : ℚ)
    (from_scanner : Bool) : Bool × AppState :=
  if rejectsRaw barcode then
    (false, s)
  else
    let code := normalizeCode barcode
    if from_scanner &&
        (code == s.last_scanned_code && now - s.last_scan_time < SCAN_COOLDOWN) then
      (false, s)
    else
      let s1 :=
        if from_scanner then
          { s with last_scanned_code := code, last_scan_time := now }
        else s
      (true, { s1 with parts := upsertParts s1.parts code now })

/-- `remove_part(index)`: pop the entry at `index` when `0 <= index < len(parts)`,
otherwise do nothing. -/
def remove_part (s : AppState) (index : Int) : AppState :=
  if 0 ≤ index ∧ index < (s.parts.length : Int) then
    { s with parts := s.parts.eraseIdx index.toNat }
  else s

/-- Overwrite the `quantity` field of the entry at position `i`. -/
def setQty (parts : List Part) (i : Nat) (q : Int) : List Part :=
  match parts, i with
  | [], _ => []
  | p :: rest, 0 => ⟨p.barcode, q, p.timestamp⟩ :: rest
  | p :: rest, Nat.succ i => p :: setQty rest i q

/-- `update_quantity(index, new_qty)`: overwrite the quantity when
`0 <= index < len(parts)` and `new_qty > 0`, otherwise do nothing. -/
def update_quantity (s : AppState) (index : Int) (new_qty : Int) : AppState :=
  if 0 ≤ index ∧ index < (s.parts.length : Int) ∧ 0 < new_qty then
    { s with parts := setQty s.parts index.toNat new_qty }
  else s

/-- `reset_transfer()`: clear every session-state field. -/
def reset_transfer (_s : AppState) : AppState :=
  { parts := [], transfer_complete := false, scanning_mode := none,
    last_scanned_code := "", last_scan_time := 0 }

/-- An HTTP response as returned by `requests.post` — `save_transfer_data`
receives one but never looks at its status code or body. -/
structure HttpResponse where
  status : Nat
  body : String
  deriving Repr, DecidableEq

/-- The `transfer_data` dict built in `save_transfer_data`:
`timestamp`, `fromLocation`, `toLocation`, `parts` (barcode/quantity pairs),
`totalParts = sum(p['quantity'] for p in parts_data)`,
`partTypes = len(parts_data)`. -/
structure TransferPayload where
  timestamp : String
  fromLocation : String
  toLocation : String
  parts : List (String × Int)
  totalParts : Int
  partTypes : Nat
  deriving Repr, DecidableEq

/-- Building `transfer_data` from the arguments of `save_transfer_data`. -/
def mkTransferPayload (ts fromLoc toLoc : String)
    (parts_data : List (String × Int)) : TransferPayload :=
  { timestamp := ts, fromLocation := fromLoc, toLocation := toLoc,
    parts := parts_data,
    totalParts := (parts_data.map Prod.snd).sum,
    partTypes := parts_data.length }

/-- `save_transfer_data`: POST the payload; return `True` whenever the call
returns a response (the status code is never inspected), and on any raised
exception show `st.error("Save failed: ...")` and return `False`.  The POST
itself is the `post` argument: `Except.ok` is a received response,
`Except.error e` an exception with message `e`.  The second component is the
error message surfaced via `st.error`, if any. -/
def save_transfer_data (payload : TransferPayload)
    (post : TransferPayload → Except String HttpResponse) :
    Bool × Option String :=
  match post payload with
  | Except.ok _ => (true, none)
  | Except.error e => (false, some ("Save failed: " ++ e))

/-- The state visible to the Complete-Transfer section: the session state plus
the two location text inputs (Streamlit widget values, which persist across
reruns and are not touched by `reset_transfer`). -/
structure UIState where
  app : AppState
  from_location : String
  to_location : String
  deriving Repr, DecidableEq

/-- The `can_complete` condition guarding the Complete-Transfer button:
`from_location and to_location and st.session_state.parts and
not st.session_state.transfer_complete` (Python truthiness: a string is
truthy iff non-empty, a list iff non-empty). -/
def can_complete (u : UIState) : Bool :=
  !(u.from_location == "") && !(u.to_location == "") &&
    !u.app.parts.isEmpty && !u.app.transfer_complete

/-- The `missing` list built in the `else` branch of the Complete-Transfer
section and shown in the warning. -/
def missingRequirements (u : UIState) : List String :=
  (if u.from_location == "" then ["From Location"] else []) ++
    (if u.to_location == "" then ["To Location"] else []) ++
      (if u.app.parts.isEmpty then ["Add at least one part"] else [])

/-- The body of the Complete-Transfer button handler: build `parts_data` and
the payload, call `save_transfer_data`, and on success run `reset_transfer`
(the location widgets are untouched).  Returns the new state together with
the surfaced error message, if any. -/
def completeTransferButton (u : UIState) (ts : String)
    (post : TransferPayload → Except String HttpResponse) :
    UIState × Option String :=
  let parts_data := u.app.parts.map fun p => (p.barcode, p.quantity)
  let payload := mkTransferPayload ts u.from_location u.to_location parts_data
  let r := save_transfer_data payload post
  if r.1 then ({ u with app := reset_transfer u.app }, r.2)
  else (u, r.2)

/-- Total quantity as computed in the summary line
(`sum(p['quantity'] for p in st.session_state.parts)`) and in the payload's
`totalParts`. -/
def totalParts (parts : List Part) : Int :=
  (parts.map Part.quantity).sum

/-- Number of line items, as in the summary line (`len(st.session_state.parts)`)
and the payload's `partTypes`. -/
def partTypes (parts : List Part) : Nat :=
  parts.length

/-- Folding a sequence of manual (`from_scanner=False`) `add_part` calls,
each given as a raw string with the time of the call. -/
def addAllManual (s : AppState) (calls : List (String × ℚ)) : AppState :=
  calls.foldl (fun st c => (add_part st c.1 c.2 false).2) s

/-! ### Helper lemmas -/

theorem pyStrip_empty : pyStrip "" = "" := rfl

theorem rejectsRaw_eq_false_of_len {raw : String}
    (h : 2 ≤ (pyStrip raw).length) : rejectsRaw raw = false := by
  have hne : (raw == "") = false := by
    rcases h1 : raw == "" with _ | _
    · rfl
    · exfalso
      rw [beq_iff_eq] at h1
      subst h1
      simp [pyStrip_empty] at h
  simp [rejectsRaw, hne]
  omega

theorem add_part_manual_accept (s : AppState) (raw : String) (now : ℚ)
    (h : 2 ≤ (pyStrip raw).length) :
    add_part s raw now false =
      (true, { s with parts := upsertParts s.parts (normalizeCode raw) now }) := by
  simp [add_part, rejectsRaw_eq_false_of_len h]

theorem upsertParts_not_mem (parts : List Part) (code : String) (now : ℚ)
    (h : code ∉ parts.map Part.barcode) :
    upsertParts parts code now = parts ++ [⟨code, 1, now⟩] := by
  induction parts with
  | nil => rfl
  | cons p rest ih =>
    simp only [List.map_cons, List.mem_cons, not_or] at h
    rw [upsertParts,
      if_neg (by simp only [beq_iff_eq]; exact fun hh => h.1 hh.symm), ih h.2]
    rfl

theorem upsertParts_mem_split (l : List Part) (p : Part) (r : List Part)
    (code : String) (now : ℚ) (hl : code ∉ l.map Part.barcode)
    (hp : p.barcode = code) :
    upsertParts (l ++ p :: r) code now =
      l ++ ⟨p.barcode, p.quantity + 1, p.timestamp⟩ :: r := by
  induction l with
  | nil =>
    simp only [List.nil_append]
    rw [upsertParts, if_pos (by simpa [beq_iff_eq] using hp)]
  | cons a l ih =>
    simp only [List.map_cons, List.mem_cons, not_or] at hl
    simp only [List.cons_append]
    rw [upsertParts,
      if_neg (by simp only [beq_iff_eq]; exact fun hh => hl.1 hh.symm), ih hl.2]

/-! ### Claims -/

/-- C1: for every ledger state and every code passing normalisation,
`add_part` increments the quantity of the existing line item carrying that
code by exactly 1 when one exists (first occurrence, rest untouched), and
otherwise appends a new line item with that code and quantity 1 at the end;
on an empty ledger, `add_part("abc123")` then `add_part("ABC123 ")` leaves
exactly one line item, code `"ABC123"`, quantity 2. -/
theorem c1_add_part_upsert (s : AppState) (raw : String) (now : ℚ)
    (h : 2 ≤ (pyStrip raw).length) :
    (add_part s raw now false).1 = true ∧
    (normalizeCode raw ∉ s.parts.map Part.barcode →
      (add_part s raw now false).2.parts = s.parts ++ [⟨normalizeCode raw, 1, now⟩]) ∧
    (∀ l p r, s.parts = l ++ p :: r → p.barcode = normalizeCode raw →
      normalizeCode raw ∉ l.map Part.barcode →
      (add_part s raw now false).2.parts =
        l ++ ⟨p.barcode, p.quantity + 1, p.timestamp⟩ :: r) ∧
    (add_part ((add_part initState "abc123" 0 false).2) "ABC123 " 1 false).2.parts.map
        (fun p => (p.barcode, p.quantity)) = [("ABC123", 2)] := by
  rw [add_part_manual_accept s raw now h]
  refine ⟨rfl, ?_, ?_, by decide⟩
  · intro hmem
    exact upsertParts_not_mem s.parts _ now hmem
  · intro l p r hsplit hp hl
    simp only
    rw [hsplit]
    exact upsertParts_mem_split l p r _ now hl hp

/-- C1 witness: applied on a one-element ledger to the raw code `" x7 "`,
which normalises to `"X7"` and is appended with quantity 1. -/
theorem c1_add_part_upsert_witness :
    (add_part ⟨[⟨"AB", 3, 0⟩], false, none, "", 0⟩ " x7 " 1 false).2.parts =
      [⟨"AB", 3, 0⟩, ⟨"X7", 1, 1⟩] := by
  have h := c1_add_part_upsert ⟨[⟨"AB", 3, 0⟩], false, none, "", 0⟩ " x7 " 1 (by decide)
  rw [h.2.1 (by decide)]
  decide

/-- C2: the validation at the top of `add_part` rejects a raw input exactly
when it is empty, whitespace-only, or its stripped length is below 2; a
rejected input leaves the whole state unchanged and returns `False`; an
accepted input is used in the ledger as its stripped, uppercased form;
`"a"` is rejected and `"  ab  "` normalises to `"AB"`. -/
theorem c2_normalization (s : AppState) (raw : String) (now : ℚ) (fs : Bool) :
    (rejectsRaw raw = true ↔
      (raw = "" ∨ pyStrip raw = "" ∨ (pyStrip raw).length < 2)) ∧
    (rejectsRaw raw = true → add_part s raw now fs = (false, s)) ∧
    (rejectsRaw raw = false →
      (add_part s raw now false).2.parts =
        upsertParts s.parts (pyUpper (pyStrip raw)) now) ∧
    rejectsRaw "a" = true ∧ normalizeCode "  ab  " = "AB" := by
  refine ⟨?_, ?_, ?_, by decide, by decide⟩
  · constructor
    · intro h
      simp only [rejectsRaw, Bool.or_eq_true, beq_iff_eq, decide_eq_true_eq] at h
      tauto
    · intro h
      rcases h with h | h | h
      · subst h; decide
      · simp [rejectsRaw, h]
      · simp [rejectsRaw, h]
  · intro h
    simp [add_part, h]
  · intro h
    simp [add_part, h, normalizeCode]

/-- C2 witness: the whitespace-only raw input `"  "` is rejected and leaves a
one-element ledger state unchanged. -/
theorem c2_normalization_witness :
    add_part ⟨[⟨"AB", 1, 0⟩], false, none, "", 0⟩ "  " 2 true =
      (false, ⟨[⟨"AB", 1, 0⟩], false, none, "", 0⟩) := by
  exact (c2_normalization ⟨[⟨"AB", 1, 0⟩], false, none, "", 0⟩ "  " 2 true).2.1 (by decide)

theorem add_part_scanner_accept (s : AppState) (raw : String) (now : ℚ)
    (h : 2 ≤ (pyStrip raw).length)
    (hacc : ¬(normalizeCode raw = s.last_scanned_code ∧
      now - s.last_scan_time < SCAN_COOLDOWN)) :
    add_part s raw now true =
      (true, { s with parts := upsertParts s.parts (normalizeCode raw) now,
                      last_scanned_code := normalizeCode raw,
                      last_scan_time := now }) := by
  have hcond : (normalizeCode raw == s.last_scanned_code &&
      decide (now - s.last_scan_time < SCAN_COOLDOWN)) = false := by
    rcases hb : (normalizeCode raw == s.last_scanned_code) with _ | _
    · simp
    · rcases ht : decide (now - s.last_scan_time < SCAN_COOLDOWN) with _ | _
      · simp
      · exact absurd ⟨by rwa [beq_iff_eq] at hb, of_decide_eq_true ht⟩ hacc
  simp [add_part, rejectsRaw_eq_false_of_len h, hcond]

theorem completeTransferButton_ok (u : UIState) (ts : String)
    (post : TransferPayload → Except String HttpResponse) (resp : HttpResponse)
    (h : post (mkTransferPayload ts u.from_location u.to_location
        (u.app.parts.map fun p => (p.barcode, p.quantity))) = Except.ok resp) :
    completeTransferButton u ts post =
      ({ app := reset_transfer u.app, from_location := u.from_location,
         to_location := u.to_location }, none) := by
  simp [completeTransferButton, save_transfer_data, h]

theorem completeTransferButton_error (u : UIState) (ts : String)
    (post : TransferPayload → Except String HttpResponse) (e : String)
    (h : post (mkTransferPayload ts u.from_location u.to_location
        (u.app.parts.map fun p => (p.barcode, p.quantity))) = Except.error e) :
    completeTransferButton u ts post = (u, some ("Save failed: " ++ e)) := by
  simp [completeTransferButton, save_transfer_data, h]

/-- C3: for scanner input a normalised code is rejected — with no change to
the ledger or to the cooldown fields — exactly when it equals
`last_scanned_code` and strictly less than `SCAN_COOLDOWN` has elapsed since
`last_scan_time`; otherwise it is accepted and the cooldown fields are set to
this code and the current time; a gap of at least `SCAN_COOLDOWN` always
leads to acceptance; manual input is never filtered and never touches the
cooldown fields. -/
theorem c3_cooldown (s : AppState) (raw : String) (now : ℚ)
    (h : 2 ≤ (pyStrip raw).length) :
    (normalizeCode raw = s.last_scanned_code ∧
        now - s.last_scan_time < SCAN_COOLDOWN →
      add_part s raw now true = (false, s)) ∧
    (¬(normalizeCode raw = s.last_scanned_code ∧
        now - s.last_scan_time < SCAN_COOLDOWN) →
      add_part s raw now true =
        (true, { s with parts := upsertParts s.parts (normalizeCode raw) now,
                        last_scanned_code := normalizeCode raw,
                        last_scan_time := now })) ∧
    (SCAN_COOLDOWN ≤ now - s.last_scan_time →
      (add_part s raw now true).1 = true) ∧
    (add_part s raw now false).1 = true ∧
    (add_part s raw now false).2.last_scanned_code = s.last_scanned_code ∧
    (add_part s raw now false).2.last_scan_time = s.last_scan_time := by
  refine ⟨?_, add_part_scanner_accept s raw now h, ?_, ?_, ?_, ?_⟩
  · rintro ⟨hc, ht⟩
    simp [add_part, rejectsRaw_eq_false_of_len h, hc, ht]
  · intro hgap
    rw [add_part_scanner_accept s raw now h
      (fun hcon => absurd hgap (not_le.mpr hcon.2))]
  · rw [add_part_manual_accept s raw now h]
  · rw [add_part_manual_accept s raw now h]
  · rw [add_part_manual_accept s raw now h]

/-- C3 witness: a second scan of `"Z9"` 1 second after the first is rejected
(the call returns `False` and the state is untouched). -/
theorem c3_cooldown_witness :
    add_part ⟨[⟨"Z9", 1, 0⟩], false, none, "Z9", 0⟩ "Z9" 1 true =
      (false, ⟨[⟨"Z9", 1, 0⟩], false, none, "Z9", 0⟩) := by
  exact (c3_cooldown ⟨[⟨"Z9", 1, 0⟩], false, none, "Z9", 0⟩ "Z9" 1 (by decide)).1
    ⟨by decide, by norm_num [SCAN_COOLDOWN]⟩

/-- C4 counterexample: on sink success the handler does NOT clear the
location fields — after a successful completion from `from_location =
"Main Warehouse"` the field still holds its old value instead of being
blank. -/
theorem c4_counterexample :
    (completeTransferButton
        ⟨⟨[⟨"AB", 1, 0⟩], false, none, "", 0⟩, "Main Warehouse", "OTT19001"⟩
        "2024-01-01T00:00:00"
        (fun _ => Except.ok ⟨200, "ok"⟩)).1.from_location ≠ "" := by
  decide

/-- C4 (amended): when the sink reports success, the handler clears the live
ledger and resets `transfer_complete`, `scanning_mode` and the cooldown
fields (returning to an empty drafting ledger, with `transfer_complete`
left `False` — no submitted flag and no transfer id are recorded), while
both location fields keep their previous values and no error is surfaced. -/
theorem c4_success_reset (u : UIState) (ts : String)
    (post : TransferPayload → Except String HttpResponse) (resp : HttpResponse)
    (h : post (mkTransferPayload ts u.from_location u.to_location
        (u.app.parts.map fun p => (p.barcode, p.quantity))) = Except.ok resp) :
    completeTransferButton u ts post =
      ({ app := { parts := [], transfer_complete := false, scanning_mode := none,
                  last_scanned_code := "", last_scan_time := 0 },
         from_location := u.from_location,
         to_location := u.to_location }, none) := by
  rw [completeTransferButton_ok u ts post resp h]
  rfl

/-- C4 witness: a concrete successful completion clears the parts list but
keeps `"Main Warehouse"` and `"OTT19001"` in the location fields. -/
theorem c4_success_reset_witness :
    completeTransferButton
        ⟨⟨[⟨"AB", 2, 0⟩], false, none, "AB", 0⟩, "Main Warehouse", "OTT19001"⟩
        "2024-01-01T00:00:00" (fun _ => Except.ok ⟨200, "ok"⟩) =
      (⟨⟨[], false, none, "", 0⟩, "Main Warehouse", "OTT19001"⟩, none) := by
  exact c4_success_reset
    ⟨⟨[⟨"AB", 2, 0⟩], false, none, "AB", 0⟩, "Main Warehouse", "OTT19001"⟩
    "2024-01-01T00:00:00" (fun _ => Except.ok ⟨200, "ok"⟩) ⟨200, "ok"⟩ rfl

/-- C5: when the sink call raises (timeout, connection error, ...), the
handler leaves the whole state — ledger, locations, lifecycle flags —
unchanged, surfaces `"Save failed: ..."`, and the completion button remains
available exactly as before, so the same confirmation can be retried. -/
theorem c5_sink_failure (u : UIState) (ts : String)
    (post : TransferPayload → Except String HttpResponse) (e : String)
    (h : post (mkTransferPayload ts u.from_location u.to_location
        (u.app.parts.map fun p => (p.barcode, p.quantity))) = Except.error e) :
    completeTransferButton u ts post = (u, some ("Save failed: " ++ e)) ∧
    can_complete (completeTransferButton u ts post).1 = can_complete u := by
  rw [completeTransferButton_error u ts post e h]
  exact ⟨rfl, rfl⟩

/-- C5 witness: a timed-out sink call leaves a concrete reviewing state
untouched and surfaces the exception text. -/
theorem c5_sink_failure_witness :
    completeTransferButton
        ⟨⟨[⟨"AB", 2, 0⟩], false, none, "", 0⟩, "Main Warehouse", "OTT19001"⟩
        "2024-01-01T00:00:00" (fun _ => Except.error "timeout") =
      (⟨⟨[⟨"AB", 2, 0⟩], false, none, "", 0⟩, "Main Warehouse", "OTT19001"⟩,
        some "Save failed: timeout") := by
  exact (c5_sink_failure
    ⟨⟨[⟨"AB", 2, 0⟩], false, none, "", 0⟩, "Main Warehouse", "OTT19001"⟩
    "2024-01-01T00:00:00" (fun _ => Except.error "timeout") "timeout" rfl).1

/-- C10: `save_transfer_data` returns `True` whenever the POST yields any
response — whatever its status code — and returns `False` exactly when the
request raises, in which case the exception text is surfaced as
`"Save failed: ..."`. -/
theorem c10_save_result (payload : TransferPayload)
    (post : TransferPayload → Except String HttpResponse) :
    (∀ resp, post payload = Except.ok resp →
      save_transfer_data payload post = (true, none)) ∧
    (∀ e, post payload = Except.error e →
      save_transfer_data payload post = (false, some ("Save failed: " ++ e))) := by
  constructor
  · intro resp h
    simp [save_transfer_data, h]
  · intro e h
    simp [save_transfer_data, h]

/-- C10 witness: a response with HTTP status 500 still yields `True` and no
error message — the status code is never inspected. -/
theorem c10_save_result_witness :
    save_transfer_data (mkTransferPayload "ts" "A" "B" [("AB", 2)])
      (fun _ => Except.ok ⟨500, "Internal Server Error"⟩) = (true, none) := by
  exact (c10_save_result (mkTransferPayload "ts" "A" "B" [("AB", 2)])
    (fun _ => Except.ok ⟨500, "Internal Server Error"⟩)).1
    ⟨500, "Internal Server Error"⟩ rfl

/-- Ledger invariant of C6: barcodes pairwise distinct and every quantity at
least 1. -/
def LedgerInv (parts : List Part) : Prop :=
  (parts.map Part.barcode).Nodup ∧ ∀ p ∈ parts, 1 ≤ p.quantity

theorem upsertParts_map_barcode (parts : List Part) (code : String) (now : ℚ) :
    (upsertParts parts code now).map Part.barcode =
      if code ∈ parts.map Part.barcode then parts.map Part.barcode
      else parts.map Part.barcode ++ [code] := by
  induction parts with
  | nil => simp [upsertParts]
  | cons p rest ih =>
    by_cases hb : p.barcode = code
    · rw [upsertParts, if_pos (beq_iff_eq.mpr hb)]
      simp [hb]
    · rw [upsertParts, if_neg (by simpa [beq_iff_eq] using hb)]
      by_cases hm : code ∈ rest.map Part.barcode
      · simp only [List.map_cons, ih, if_pos hm]
        rw [if_pos (List.mem_cons_of_mem _ hm)]
      · simp only [List.map_cons, ih, if_neg hm]
        rw [if_neg (by
          simp only [List.mem_cons]
          rintro (hh | hh)
          · exact hb hh.symm
          · exact hm hh)]
        rfl

theorem upsertParts_nodup {parts : List Part} (code : String) (now : ℚ)
    (h : (parts.map Part.barcode).Nodup) :
    ((upsertParts parts code now).map Part.barcode).Nodup := by
  rw [upsertParts_map_barcode]
  by_cases hm : code ∈ parts.map Part.barcode
  · rwa [if_pos hm]
  · rw [if_neg hm, List.nodup_append]
    refine ⟨h, List.nodup_singleton code, ?_⟩
    intro x hx hx1
    rw [List.mem_singleton] at hx1
    exact hm (hx1 ▸ hx)

theorem upsertParts_qty {parts : List Part} (code : String) (now : ℚ)
    (h : ∀ p ∈ parts, 1 ≤ p.quantity) :
    ∀ p ∈ upsertParts parts code now, 1 ≤ p.quantity := by
  induction parts with
  | nil =>
    intro p hp
    rw [upsertParts, List.mem_singleton] at hp
    subst hp
    exact le_refl 1
  | cons a rest ih =>
    intro p hp
    rw [upsertParts] at hp
    split at hp
    · rcases List.mem_cons.mp hp with hh | hh
      · subst hh
        have := h a (List.mem_cons_self a rest)
        simp only
        omega
      · exact h p (List.mem_cons_of_mem _ hh)
    · rcases List.mem_cons.mp hp with hh | hh
      · subst hh
        exact h p (List.mem_cons_self p rest)
      · exact ih (fun x hx => h x (List.mem_cons_of_mem _ hx)) p hh

theorem add_part_parts_cases (s : AppState) (raw : String) (now : ℚ)
    (fs : Bool) :
    (add_part s raw now fs).2.parts = s.parts ∨
    (add_part s raw now fs).2.parts = upsertParts s.parts (normalizeCode raw) now := by
  by_cases hrej : rejectsRaw raw = true
  · left
    simp [add_part, hrej]
  · rw [Bool.not_eq_true] at hrej
    rcases fs with _ | _
    · right
      simp [add_part, hrej]
    · by_cases hcd : (normalizeCode raw == s.last_scanned_code &&
          decide (now - s.last_scan_time < SCAN_COOLDOWN)) = true
      · left
        simp [add_part, hrej, hcd]
      · right
        rw [Bool.not_eq_true] at hcd
        simp [add_part, hrej, hcd]

theorem add_part_nodup {s : AppState} (raw : String) (now : ℚ) (fs : Bool)
    (h : (s.parts.map Part.barcode).Nodup) :
    ((add_part s raw now fs).2.parts.map Part.barcode).Nodup := by
  rcases add_part_parts_cases s raw now fs with hc | hc <;> rw [hc]
  · exact h
  · exact upsertParts_nodup _ now h

theorem setQty_map_barcode (parts : List Part) (i : Nat) (q : Int) :
    (setQty parts i q).map Part.barcode = parts.map Part.barcode := by
  induction parts generalizing i with
  | nil => rfl
  | cons p rest ih =>
    cases i with
    | zero => rfl
    | succ n => simp [setQty, ih]

theorem setQty_qty {parts : List Part} (i : Nat) {q : Int} (hq : 1 ≤ q)
    (h : ∀ p ∈ parts, 1 ≤ p.quantity) :
    ∀ p ∈ setQty parts i q, 1 ≤ p.quantity := by
  induction parts generalizing i with
  | nil =>
    intro p hp
    cases hp
  | cons a rest ih =>
    intro p hp
    cases i with
    | zero =>
      rcases List.mem_cons.mp hp with hh | hh
      · subst hh
        exact hq
      · exact h p (List.mem_cons_of_mem _ hh)
    | succ n =>
      rcases List.mem_cons.mp hp with hh | hh
      · subst hh
        exact h p (List.mem_cons_self p rest)
      · exact ih n (fun x hx => h x (List.mem_cons_of_mem _ hx)) p hh

/-- C6: the ledger invariant — pairwise-distinct barcodes and quantities of
at least 1 — is preserved by `add_part`, `update_quantity`, `remove_part`
and `reset_transfer`; moreover no operation re-sorts the list: `add_part`
either keeps the barcode sequence or appends one new code at the end,
`update_quantity` keeps it, and `remove_part` yields a sublist (so first-seen
insertion order is stable). -/
theorem c6_ledger_invariant (s : AppState) (hinv : LedgerInv s.parts) :
    (∀ raw now fs, LedgerInv ((add_part s raw now fs).2.parts) ∧
      ((add_part s raw now fs).2.parts.map Part.barcode = s.parts.map Part.barcode ∨
       (add_part s raw now fs).2.parts.map Part.barcode
         = s.parts.map Part.barcode ++ [normalizeCode raw])) ∧
    (∀ i q, LedgerInv ((update_quantity s i q).parts) ∧
      (update_quantity s i q).parts.map Part.barcode = s.parts.map Part.barcode) ∧
    (∀ i, LedgerInv ((remove_part s i).parts) ∧
      List.Sublist (remove_part s i).parts s.parts) ∧
    LedgerInv (reset_transfer s).parts := by
  obtain ⟨hnd, hq⟩ := hinv
  refine ⟨?_, ?_, ?_, ?_⟩
  · intro raw now fs
    rcases add_part_parts_cases s raw now fs with hc | hc <;> rw [hc]
    · exact ⟨⟨hnd, hq⟩, Or.inl rfl⟩
    · refine ⟨⟨upsertParts_nodup _ now hnd, upsertParts_qty _ now hq⟩, ?_⟩
      rw [upsertParts_map_barcode]
      by_cases hm : normalizeCode raw ∈ s.parts.map Part.barcode
      · exact Or.inl (if_pos hm)
      · exact Or.inr (if_neg hm)
  · intro i q
    unfold update_quantity
    split
    · rename_i hcond
      refine ⟨⟨?_, ?_⟩, ?_⟩
      · simpa [setQty_map_barcode] using hnd
      · exact setQty_qty i.toNat hcond.2.2 hq
      · exact setQty_map_barcode s.parts i.toNat q
    · exact ⟨⟨hnd, hq⟩, rfl⟩
  · intro i
    unfold remove_part
    split
    · have hsub : List.Sublist (s.parts.eraseIdx i.toNat) s.parts :=
        List.eraseIdx_sublist s.parts i.toNat
      refine ⟨⟨List.Nodup.sublist (List.Sublist.map Part.barcode hsub) hnd, ?_⟩, hsub⟩
      intro p hp
      exact hq p (List.Sublist.subset hsub hp)
    · exact ⟨⟨hnd, hq⟩, List.Sublist.refl s.parts⟩
  · exact ⟨List.nodup_nil, by intro p hp; cases hp⟩

/-- C6 witness: on a concrete two-item ledger, adding a fresh code keeps the
invariant and appends the new code at the end of the barcode sequence. -/
theorem c6_ledger_invariant_witness :
    LedgerInv ((add_part ⟨[⟨"AB", 2, 0⟩, ⟨"CD", 1, 0⟩], false, none, "", 0⟩
        " x7 " 1 false).2.parts) := by
  exact ((c6_ledger_invariant ⟨[⟨"AB", 2, 0⟩, ⟨"CD", 1, 0⟩], false, none, "", 0⟩
    ⟨by decide, by decide⟩).1 " x7 " 1 false).1

theorem upsertParts_total (parts : List Part) (code : String) (now : ℚ) :
    totalParts (upsertParts parts code now) = totalParts parts + 1 := by
  induction parts with
  | nil => simp [upsertParts, totalParts]
  | cons p rest ih =>
    rw [upsertParts]
    split
    · simp only [totalParts, List.map_cons, List.sum_cons] at ih ⊢
      ring
    · simp only [totalParts, List.map_cons, List.sum_cons] at ih ⊢
      rw [ih]
      ring

theorem upsertParts_toFinset (parts : List Part) (code : String) (now : ℚ) :
    ((upsertParts parts code now).map Part.barcode).toFinset =
      insert code (parts.map Part.barcode).toFinset := by
  rw [upsertParts_map_barcode]
  by_cases hm : code ∈ parts.map Part.barcode
  · rw [if_pos hm, Finset.insert_eq_self.mpr (List.mem_toFinset.mpr hm)]
  · rw [if_neg hm, List.toFinset_append]
    simp [Finset.union_comm, Finset.insert_eq]

theorem addAllManual_stats (calls : List (String × ℚ)) :
    ∀ s : AppState, (∀ c ∈ calls, 2 ≤ (pyStrip c.1).length) →
      totalParts (addAllManual s calls).parts
          = totalParts s.parts + calls.length ∧
      ((addAllManual s calls).parts.map Part.barcode).toFinset
          = (s.parts.map Part.barcode).toFinset ∪
            (calls.map fun c => normalizeCode c.1).toFinset := by
  induction calls with
  | nil =>
    intro s _
    simp [addAllManual]
  | cons c rest ih =>
    intro s h
    have hc : 2 ≤ (pyStrip c.1).length := h c (List.mem_cons_self c rest)
    have hstep : (add_part s c.1 c.2 false).2 =
        { s with parts := upsertParts s.parts (normalizeCode c.1) c.2 } := by
      rw [add_part_manual_accept s c.1 c.2 hc]
    have hrest := ih { s with parts := upsertParts s.parts (normalizeCode c.1) c.2 }
      (fun x hx => h x (List.mem_cons_of_mem _ hx))
    have hfold : addAllManual s (c :: rest) =
        addAllManual { s with parts := upsertParts s.parts (normalizeCode c.1) c.2 } rest := by
      rw [addAllManual, List.foldl_cons, hstep]
      rfl
    rw [hfold]
    constructor
    · rw [hrest.1]
      simp only [upsertParts_total, List.length_cons]
      push_cast
      ring
    · rw [hrest.2]
      simp only [upsertParts_toFinset, List.map_cons, List.toFinset_cons,
        Finset.insert_union, Finset.union_insert]

theorem addAllManual_nodup (calls : List (String × ℚ)) :
    ∀ s : AppState, (s.parts.map Part.barcode).Nodup →
      ((addAllManual s calls).parts.map Part.barcode).Nodup := by
  induction calls with
  | nil =>
    intro s h
    exact h
  | cons c rest ih =>
    intro s h
    rw [addAllManual, List.foldl_cons]
    exact ih (add_part s c.1 c.2 false).2 (add_part_nodup c.1 c.2 false h)

/-- C7: starting from the empty ledger, after any finite sequence of valid
manual `add_part` calls (each of which succeeds), the sum of all quantities
equals the number of calls and the number of line items equals the number of
distinct normalised codes among the calls. -/
theorem c7_totals (calls : List (String × ℚ))
    (h : ∀ c ∈ calls, 2 ≤ (pyStrip c.1).length) :
    totalParts (addAllManual initState calls).parts = calls.length ∧
    partTypes (addAllManual initState calls).parts
      = (calls.map fun c => normalizeCode c.1).toFinset.card := by
  obtain ⟨h1, h2⟩ := addAllManual_stats calls initState h
  constructor
  · rw [h1]
    simp [initState, totalParts]
  · have hnodup := addAllManual_nodup calls initState (by simp [initState])
    rw [partTypes, ← List.length_map (addAllManual initState calls).parts Part.barcode,
      ← List.toFinset_card_of_nodup hnodup, h2]
    simp [initState]

/-- C7 witness: three valid calls with codes normalising to `"AB"`, `"AB"`,
`"CD"` yield total quantity 3 over 2 line items. -/
theorem c7_totals_witness :
    totalParts (addAllManual initState [("ab", 0), (" AB", 1), ("cd", 2)]).parts = 3 ∧
    partTypes (addAllManual initState [("ab", 0), (" AB", 1), ("cd", 2)]).parts = 2 := by
  obtain ⟨h1, h2⟩ := c7_totals [("ab", 0), (" AB", 1), ("cd", 2)] (by decide)
  refine ⟨by rw [h1]; rfl, by rw [h2]; rfl⟩

/-- C8: the Complete-Transfer button is shown only when `from_location` is
non-empty, `to_location` is non-empty and the parts list is non-empty (with
`transfer_complete = False`, as always holds, these three conditions are
also sufficient); whenever one of them fails the button is absent — so no
submission is attempted — and the corresponding requirement appears in the
warning list. -/
theorem c8_can_complete_guard (u : UIState) :
    (can_complete u = true →
      u.from_location ≠ "" ∧ u.to_location ≠ "" ∧ u.app.parts ≠ []) ∧
    (u.app.transfer_complete = false →
      (can_complete u = true ↔
        (u.from_location ≠ "" ∧ u.to_location ≠ "" ∧ u.app.parts ≠ []))) ∧
    (u.from_location = "" →
      can_complete u = false ∧ "From Location" ∈ missingRequirements u) ∧
    (u.to_location = "" →
      can_complete u = false ∧ "To Location" ∈ missingRequirements u) ∧
    (u.app.parts = [] →
      can_complete u = false ∧ "Add at least one part" ∈ missingRequirements u) := by
  have hemp : u.app.parts.isEmpty = false ↔ u.app.parts ≠ [] := by
    rw [← Bool.not_eq_true, not_iff_not, List.isEmpty_iff]
  refine ⟨?_, ?_, ?_, ?_, ?_⟩
  · intro h
    simp only [can_complete, Bool.and_eq_true, Bool.not_eq_true',
      beq_eq_false_iff_ne, hemp, ne_eq] at h
    exact ⟨h.1.1.1, h.1.1.2, h.1.2⟩
  · intro hc
    simp [can_complete, hc, hemp, and_assoc]
  · intro h
    constructor
    · simp [can_complete, h]
    · simp [missingRequirements, h]
  · intro h
    constructor
    · simp [can_complete, h]
    · simp [missingRequirements, h]
  · intro h
    constructor
    · simp [can_complete, h]
    · simp [missingRequirements, h]

/-- C8 witness: with a blank destination the button is absent and the warning
names `"To Location"`. -/
theorem c8_can_complete_guard_witness :
    can_complete ⟨⟨[⟨"AB", 1, 0⟩], false, none, "", 0⟩, "Main Warehouse", ""⟩ = false ∧
    "To Location" ∈
      missingRequirements ⟨⟨[⟨"AB", 1, 0⟩], false, none, "", 0⟩, "Main Warehouse", ""⟩ := by
  exact (c8_can_complete_guard
    ⟨⟨[⟨"AB", 1, 0⟩], false, none, "", 0⟩, "Main Warehouse", ""⟩).2.2.2.1 rfl

theorem setQty_get_same (parts : List Part) (i : Nat) (q : Int) :
    (setQty parts i q).get? i =
      (parts.get? i).map fun p => ⟨p.barcode, q, p.timestamp⟩ := by
  induction parts generalizing i with
  | nil => rfl
  | cons p rest ih =>
    cases i with
    | zero => rfl
    | succ n => exact ih n

theorem setQty_get_other (parts : List Part) (i : Nat) (q : Int)
    {j : Nat} (hj : j ≠ i) :
    (setQty parts i q).get? j = parts.get? j := by
  induction parts generalizing i j with
  | nil => rfl
  | cons p rest ih =>
    cases i with
    | zero =>
      cases j with
      | zero => exact absurd rfl hj
      | succ m => rfl
    | succ n =>
      cases j with
      | zero => rfl
      | succ m => exact ih n (fun hh => hj (by rw [hh]))

/-- C9: `update_quantity` with a quantity below 1 is rejected and the prior
state is fully retained; an out-of-range index (negative or past the end) is
a no-op; for an in-range index and a quantity of at least 1 the item's
quantity is overwritten with the given value while every other position of
the list is unchanged. -/
theorem c9_update_quantity (s : AppState) (i q : Int) :
    (q < 1 → update_quantity s i q = s) ∧
    (i < 0 ∨ (s.parts.length : Int) ≤ i → update_quantity s i q = s) ∧
    (0 ≤ i → i < (s.parts.length : Int) → 1 ≤ q →
      ((update_quantity s i q).parts.get? i.toNat =
        (s.parts.get? i.toNat).map fun p => ⟨p.barcode, q, p.timestamp⟩) ∧
      ∀ j : Nat, j ≠ i.toNat →
        (update_quantity s i q).parts.get? j = s.parts.get? j) := by
  refine ⟨?_, ?_, ?_⟩
  · intro hq
    rw [update_quantity, if_neg]
    rintro ⟨-, -, h0⟩
    omega
  · intro hi
    rw [update_quantity, if_neg]
    rintro ⟨h0, hlen, -⟩
    rcases hi with hi | hi <;> omega
  · intro h0 hlen hq
    have hcond : 0 ≤ i ∧ i < (s.parts.length : Int) ∧ 0 < q := ⟨h0, hlen, by omega⟩
    rw [update_quantity, if_pos hcond]
    exact ⟨setQty_get_same s.parts i.toNat q,
      fun j hj => setQty_get_other s.parts i.toNat q hj⟩

/-- C9 witness: on a two-item ledger, setting position 1 to quantity 5
overwrites only that entry, while quantity 0 and index 7 are no-ops. -/
theorem c9_update_quantity_witness :
    update_quantity ⟨[⟨"AB", 2, 0⟩, ⟨"CD", 1, 0⟩], false, none, "", 0⟩ 0 0 =
      ⟨[⟨"AB", 2, 0⟩, ⟨"CD", 1, 0⟩], false, none, "", 0⟩ ∧
    update_quantity ⟨[⟨"AB", 2, 0⟩, ⟨"CD", 1, 0⟩], false, none, "", 0⟩ 7 5 =
      ⟨[⟨"AB", 2, 0⟩, ⟨"CD", 1, 0⟩], false, none, "", 0⟩ ∧
    (update_quantity ⟨[⟨"AB", 2, 0⟩, ⟨"CD", 1, 0⟩], false, none, "", 0⟩ 1 5).parts.get? 1 =
      some ⟨"CD", 5, 0⟩ := by
  refine ⟨(c9_update_quantity ⟨[⟨"AB", 2, 0⟩, ⟨"CD", 1, 0⟩], false, none, "", 0⟩ 0 0).1
      (by decide),
    (c9_update_quantity ⟨[⟨"AB", 2, 0⟩, ⟨"CD", 1, 0⟩], false, none, "", 0⟩ 7 5).2.1
      (Or.inr (by decide)), ?_⟩
  have h3 := ((c9_update_quantity ⟨[⟨"AB", 2, 0⟩, ⟨"CD", 1, 0⟩], false, none, "", 0⟩ 1 5).2.2
    (by decide) (by decide) (by decide)).1
  exact h3.trans rfl

end PartsApp
